import Mathlib

/-!
# Verification of the Nexora hybrid retrieval and graph-consistency engine

Shallow embedding of the core of the repository:

* `graphfunc/graph_pg_store.py` — entity / edge upserts with merge-on-conflict,
  occurrence decrements, zero-occurrence deactivation (the SQL statements are
  modelled as pure state transformers over row lists);
* `functions/rag_pg_store.py` — `search_chunks` nearest-neighbour scan
  (the pgvector `<->` score is modelled as the squared euclidean distance,
  which orders rows exactly like the euclidean distance);
* `functions/chunkfunc.py` — meta-header build/parse and the pre-rerank
  merge-by-page/caption pass;
* `functions/rerank_client.py` — `rerank_hits`;
* `core.py` — `_extract_entities_from_text`, `_find_entities_hybrid`,
  the retrieval part of `chat_send`, and `process_graph_jobs_once`.

External effects (database queries, model calls, the rerank HTTP service)
are modelled as `Except String` valued fields of an environment record;
`Except.error` plays the role of a raised Python exception.  Python `float`
arithmetic is modelled over `ℚ`; the transcendental `math.log` has no exact
rational counterpart and is kept as an uninterpreted field `lnq` of the
environment, with the score formulas of the source preserved symbolically.
-/

namespace Nexora

/-! ## Python string primitives over code points

Python strings are sequences of code points; the model runs the string
primitives over `String.data` (Lean's byte-position based versions compute
the same functions). -/

/-- Python `s[:n]` on strings (slicing by code points). -/
def pyStrTake (s : String) (n : ℕ) : String := String.mk (s.data.take n)

/-- Drop the longest matching suffix of a character list. -/
def listDropRightWhile (p : Char → Bool) (l : List Char) : List Char :=
  (l.reverse.dropWhile p).reverse

/-- Python strings are sequences of code points; the model therefore runs the
string primitives over `String.data` (Lean's byte-position based versions
compute the same functions). `pyStrTrim` is Python `str.strip()`. -/
def pyStrTrim (s : String) : String :=
  String.mk (listDropRightWhile Char.isWhitespace (s.data.dropWhile Char.isWhitespace))

/-- Python `str.startswith`. -/
def pyStartsWith (s pre : String) : Bool := pre.data.isPrefixOf s.data

/-- Python `str.endswith`. -/
def pyEndsWith (s suf : String) : Bool := suf.data.isSuffixOf s.data

/-- Python `s[n:]` (dropping `n` code points). -/
def pyStrDrop (s : String) (n : ℕ) : String := String.mk (s.data.drop n)

/-- Python `str.rstrip(chars)` generalised over a character predicate. -/
def pyDropRightWhile (p : Char → Bool) (s : String) : String :=
  String.mk (listDropRightWhile p s.data)

/-- Python `str.lower` (over the basic case mapping). -/
def pyToLower (s : String) : String := String.mk (s.data.map Char.toLower)

/-- Python `str.replace(c, "")` for a single-character pattern. -/
def pyRemoveChar (c : Char) (s : String) : String :=
  String.mk (s.data.filter (fun x => !(x == c)))

/-- Python `str.replace(c, r)` for single characters. -/
def pyMapChar (c r : Char) (s : String) : String :=
  String.mk (s.data.map (fun x => if x = c then r else x))

/-- Splitting a character list at every separator (keeping empty fields,
like Python `str.split(sep)` / Lean `String.split`). -/
def splitCharsAux (p : Char → Bool) : List Char → List Char → List String
  | [], acc => [String.mk acc.reverse]
  | c :: cs, acc =>
      if p c then String.mk acc.reverse :: splitCharsAux p cs []
      else splitCharsAux p cs (c :: acc)

/-- Split a string at every character matching `p`, keeping empty fields. -/
def splitChars (p : Char → Bool) (s : String) : List String :=
  splitCharsAux p s.data []

/-- Decimal digit-string reading (the core of Python `int(str)`). -/
def pyDigitsToNat : List Char → ℕ → Option ℕ
  | [], acc => some acc
  | c :: cs, acc =>
      if c.isDigit then pyDigitsToNat cs (acc * 10 + (c.toNat - 48)) else none

/-- Python `str.rstrip()` (no argument): drop trailing whitespace. -/
def rstripWs (s : String) : String := pyDropRightWhile Char.isWhitespace s


/-! ## Graph store: entities (`graph_pg_store.upsert_entity` and friends) -/

/-- A row of the `entity` table, with the columns the claims are about
(timestamps and audit columns are omitted; `entity_id` is the generated
primary key). -/
structure EntityRec where
  entity_id : String
  app_id : String
  name : String
  etype : String
  classification : Int
  aliases : List String
  description : Option String
  confidence : String
  embedding : Option (List ℚ)
  occurrence_count : Int
  is_active : Bool
deriving DecidableEq, Repr

/-- The natural key of `entity`: the `ON CONFLICT (app_id, name, type, classification)`
target of `upsert_entity`. -/
def entityKeyMatches (r : EntityRec) (app n t : String) (cls : Int) : Bool :=
  r.app_id == app && r.name == n && r.etype == t && r.classification == cls

/-- The `DO UPDATE SET` arm of `upsert_entity`: aliases replaced, description
coalesced (incoming wins when present), confidence overwritten, embedding
coalesced (incoming wins when present), occurrence incremented, reactivated. -/
def mergeEntityRow (r : EntityRec) (aliases : List String) (description : Option String)
    (confidence : String) (embedding : Option (List ℚ)) : EntityRec :=
  { r with
    aliases := aliases
    description := description.orElse (fun _ => r.description)
    confidence := confidence
    embedding := embedding.orElse (fun _ => r.embedding)
    occurrence_count := r.occurrence_count + 1
    is_active := true }

/-- `graph_pg_store.upsert_entity`: `INSERT ... ON CONFLICT ... DO UPDATE`.
A fresh row starts with `occurrence_count = 1` and `is_active = true`;
`newId` stands for the generated primary key of the inserted row. -/
def upsert_entity (store : List EntityRec) (newId app n t : String) (aliases : List String)
    (description : Option String) (confidence : String) (cls : Int)
    (embedding : Option (List ℚ)) : List EntityRec :=
  if store.any (fun r => entityKeyMatches r app n t cls) then
    store.map (fun r =>
      if entityKeyMatches r app n t cls then
        mergeEntityRow r aliases description confidence embedding
      else r)
  else
    store ++ [{ entity_id := newId, app_id := app, name := n, etype := t,
                classification := cls, aliases := aliases, description := description,
                confidence := confidence, embedding := embedding,
                occurrence_count := 1, is_active := true }]

/-- `graph_pg_store.decrement_entity_occurrence`:
`SET occurrence_count = GREATEST(occurrence_count - dec, 0)
 WHERE app_id = ... AND entity_id = ...`. -/
def decrement_entity_occurrence (ents : List EntityRec) (app eid : String) (dec : Int) :
    List EntityRec :=
  ents.map (fun e =>
    if e.app_id == app && e.entity_id == eid then
      { e with occurrence_count := max (e.occurrence_count - dec) 0 }
    else e)

/-- `graph_pg_store.deactivate_entities_with_zero_occurrence`:
`SET is_active = false, confidence = 'low'
 WHERE app_id = ... AND entity_id = ANY(ids) AND occurrence_count <= 0`.
(The Python early return on an empty id list coincides with the map being
the identity there.) -/
def deactivate_entities_with_zero_occurrence (ents : List EntityRec) (app : String)
    (ids : List String) : List EntityRec :=
  ents.map (fun e =>
    if e.app_id == app && ids.contains e.entity_id && decide (e.occurrence_count ≤ 0) then
      { e with is_active := false, confidence := "low" }
    else e)

/-! ## Graph store: edges (`graph_pg_store.upsert_edge` and friends) -/

/-- A row of the `entity_edge` table (timestamps and audit columns omitted). -/
structure EdgeRec where
  app_id : String
  src_entity_id : String
  dst_entity_id : String
  edge_type : String
  weight : ℚ
  confidence : String
  classification : Int
  evidence_count : Int
  evidence_chunk_ids : List String
  edge_notes : Option String
deriving DecidableEq, Repr

/-- The `ON CONFLICT (app_id, src_entity_id, dst_entity_id, edge_type)` target
of `upsert_edge`. -/
def edgeKeyMatches (r : EdgeRec) (app src dst t : String) : Bool :=
  r.app_id == app && r.src_entity_id == src && r.dst_entity_id == dst && r.edge_type == t

/-- The `DO UPDATE SET` arm of `upsert_edge`: the weight accumulates with
saturation (`LEAST(weight + incoming, 1.000)`), the evidence count increments,
and the evidence chunk-id list becomes
`jsonb_agg(DISTINCT x)` over the concatenation of the stored and incoming
lists — deduplicated; the engine emits it in an engine-chosen order, which the
model fixes as `List.dedup` of the concatenation (claims about this column are
stated up to set equality). -/
def mergeEdgeRow (r : EdgeRec) (weight : ℚ) (evidence : List String)
    (confidence : String) (notes : Option String) : EdgeRec :=
  { r with
    weight := min (r.weight + weight) 1
    confidence := confidence
    evidence_count := r.evidence_count + 1
    evidence_chunk_ids := (r.evidence_chunk_ids ++ evidence).dedup
    edge_notes := notes.orElse (fun _ => r.edge_notes) }

/-- `graph_pg_store.upsert_edge`: `INSERT ... ON CONFLICT ... DO UPDATE`. -/
def upsert_edge (store : List EdgeRec) (app src dst t : String) (weight : ℚ)
    (evidence : List String) (confidence : String) (cls : Int)
    (notes : Option String) : List EdgeRec :=
  if store.any (fun r => edgeKeyMatches r app src dst t) then
    store.map (fun r =>
      if edgeKeyMatches r app src dst t then mergeEdgeRow r weight evidence confidence notes
      else r)
  else
    store ++ [{ app_id := app, src_entity_id := src, dst_entity_id := dst,
                edge_type := t, weight := weight, confidence := confidence,
                classification := cls, evidence_count := 1,
                evidence_chunk_ids := evidence, edge_notes := notes }]

/-- `N` successive `upsert_edge` calls with identical arguments. -/
def upsert_edge_iter (n : ℕ) (store : List EdgeRec) (app src dst t : String) (weight : ℚ)
    (evidence : List String) (confidence : String) (cls : Int)
    (notes : Option String) : List EdgeRec :=
  match n with
  | 0 => store
  | Nat.succ m =>
      upsert_edge (upsert_edge_iter m store app src dst t weight evidence confidence cls notes)
        app src dst t weight evidence confidence cls notes

/-- `graph_pg_store.decrement_edge_evidence`:
`SET evidence_count = GREATEST(evidence_count - dec, 0)` on the matching edge. -/
def decrement_edge_evidence (edges : List EdgeRec) (app src dst t : String) (dec : Int) :
    List EdgeRec :=
  edges.map (fun r =>
    if edgeKeyMatches r app src dst t then
      { r with evidence_count := max (r.evidence_count - dec) 0 }
    else r)

/-! ## Graph maintenance worker (`core.process_graph_jobs_once`, one job) -/

/-- One element of a document-deleted job payload's `mentions` list.
`mention_count` is `Option`al because the Python reads it with
`int(m.get("mention_count") or 1)` — both a missing value and `0` fall back
to `1`. -/
structure MentionSnap where
  entity_id : String
  chunk_id : String
  mention_count : Option Int
deriving DecidableEq, Repr

/-- `int(m.get("mention_count") or 1)`. -/
def mentionCnt (m : MentionSnap) : Int :=
  match m.mention_count with
  | none => 1
  | some v => if v = 0 then 1 else v

/-- Add `c` to the accumulated decrement of key `eid`
(`dec_map[eid] = dec_map.get(eid, 0) + cnt`), preserving insertion order. -/
def addDec (mp : List (String × Int)) (eid : String) (c : Int) : List (String × Int) :=
  if mp.any (fun p => p.1 == eid) then
    mp.map (fun p => if p.1 == eid then (p.1, p.2 + c) else p)
  else mp ++ [(eid, c)]

/-- `chunk_entity_map.setdefault(cid, []).append(eid)`. -/
def addChunkEnt (mp : List (String × List String)) (cid eid : String) :
    List (String × List String) :=
  if mp.any (fun p => p.1 == cid) then
    mp.map (fun p => if p.1 == cid then (p.1, p.2 ++ [eid]) else p)
  else mp ++ [(cid, [eid])]

/-- The first loop of `process_graph_jobs_once`: build the per-entity decrement
map and the chunk → entity list map from the payload mentions (entries with an
empty `entity_id` are skipped; entries with an empty `chunk_id` contribute to
the decrement map only). -/
def buildJobMaps (mentions : List MentionSnap) :
    List (String × Int) × List (String × List String) :=
  mentions.foldl
    (fun acc m =>
      let eid := pyStrTrim m.entity_id
      let cid := pyStrTrim m.chunk_id
      let c := mentionCnt m
      if eid = "" then acc
      else (addDec acc.1 eid c, if cid = "" then acc.2 else addChunkEnt acc.2 cid eid))
    ([], [])

/-- Python `dict.fromkeys` style order-preserving deduplication
(first occurrence wins — unlike Mathlib's `List.dedup`). -/
def pyDedup (l : List String) : List String :=
  l.foldl (fun acc x => if acc.contains x then acc else acc ++ [x]) []

/-- All unordered pairs `i < j` of a list, in loop order. -/
def listPairs {α : Type} : List α → List (α × α)
  | [] => []
  | x :: xs => xs.map (fun y => (x, y)) ++ listPairs xs

/-- The graph state touched by the worker. -/
structure GraphState where
  entities : List EntityRec
  edges : List EdgeRec
deriving Repr

/-- Processing of a single claimed document-deleted job
(`core.process_graph_jobs_once`, body of the per-job loop): accumulate the
decrement map, decrement entity occurrences, decrement `co_occurs` edge
evidence for every unordered pair of entities co-occurring in a chunk (both
directions), then deactivate the referenced entities whose occurrence count
reached zero. -/
def process_graph_job (app : String) (mentions : List MentionSnap) (st : GraphState) :
    GraphState :=
  let maps := buildJobMaps mentions
  let ents1 := maps.1.foldl (fun acc p => decrement_entity_occurrence acc app p.1 p.2) st.entities
  let edges1 := maps.2.foldl
    (fun es p =>
      let uniq := pyDedup (p.2.filter (fun x => x ≠ ""))
      (listPairs uniq).foldl
        (fun es2 q =>
          decrement_edge_evidence
            (decrement_edge_evidence es2 app q.1 q.2 "co_occurs" 1)
            app q.2 q.1 "co_occurs" 1)
        es)
    st.edges
  let ents2 := deactivate_entities_with_zero_occurrence ents1 app (maps.1.map (fun p => p.1))
  { entities := ents2, edges := edges1 }

/-! ## Chunk store: `rag_pg_store.search_chunks` -/

/-- A row of the `chunks` table (columns read by `search_chunks`). -/
structure ChunkRow where
  chunk_id : String
  doc_id : String
  version_id : String
  chunk_text : String
  embedding : Option (List ℚ)
deriving DecidableEq, Repr

/-- A retrieval hit as produced by `search_chunks` /
`get_chunks_by_ids` (a Python dict; `score` is present only when
`return_with_scores` is set). -/
structure Hit where
  chunk_id : String
  doc_id : String
  version_id : String
  chunk_text : String
  score : Option ℚ
deriving DecidableEq, Repr

/-- The model of the pgvector score `c.embedding <-> q` (`bscore`): the squared
euclidean distance over `ℚ`.  The actual `<->` is its square root; both order
any set of rows identically, and the theorem about `search_chunks` states the
ordering for the square root as well. -/
def bscore (q : List ℚ) (e : List ℚ) : ℚ :=
  (List.zipWith (fun x y => (x - y) * (x - y)) e q).sum

/-- `rag_pg_store.search_chunks`: rows with a non-null embedding, ordered by
`bscore` ascending, `LIMIT top_k`; `top_k` falls back to 5 when absent
(`None`) or non-positive.  `ORDER BY` leaves ties in an engine-chosen order;
the model fixes a stable sort. -/
def search_chunks (rows : List ChunkRow) (q : List ℚ) (top_k : Option Int)
    (return_with_scores : Bool) : List Hit :=
  let k : Int := match top_k with
    | none => 5
    | some t => if t ≤ 0 then 5 else t
  let scored := (rows.filter (fun r => r.embedding.isSome)).map
    (fun r => (r, bscore q (r.embedding.getD [])))
  let sorted := scored.mergeSort (fun a b => decide (a.2 ≤ b.2))
  (sorted.take k.toNat).map (fun p =>
    { chunk_id := p.1.chunk_id, doc_id := p.1.doc_id, version_id := p.1.version_id,
      chunk_text := p.1.chunk_text,
      score := if return_with_scores then some p.2 else none })

/-! ## Chunk functions (`functions/chunkfunc.py`): meta headers and the merge pass -/

/-- `config.META_PREFIX`. -/
def metaTag : String := "[[META"

/-- The maximum merged text length, `config.PRE_RERANK_MERGE_MAX_CHARS`
(`getattr` default 14000; the repository sets 9000).  The merge pass is
parameterised over it. -/
def preRerankMergeMaxCharsDefault : ℕ := 9000

/-- Value sanitisation in `build_meta_header`:
`str(v).replace("]", "").replace("\n", " ").strip()`, truncated to 120
characters with an ellipsis. -/
def sanitizeMetaVal (v : String) : String :=
  let v := pyStrTrim (pyMapChar '\n' ' ' (pyRemoveChar ']' v))
  if v.length > 120 then pyStrTake v 120 ++ "…" else v

/-- `chunkfunc.build_meta_header`: emits `[[META k=v ...]]` for the keys
`type`, `page`, `caption` whose values are present and non-empty
(`page` is passed here already rendered with `str`). -/
def build_meta_header (mtype page caption : Option String) : String :=
  let fields := [("type", mtype), ("page", page), ("caption", caption)]
  let parts := fields.filterMap (fun p =>
    match p.2 with
    | none => none
    | some v => if v = "" then none else some (p.1 ++ "=" ++ sanitizeMetaVal v))
  metaTag ++ " " ++ " ".intercalate parts ++ "]]"

/-- The first line of a string (Python `text.splitlines()[0]`, with `\n` and
`\r` as the modelled line boundaries). -/
def firstLine (s : String) : String :=
  String.mk (s.data.takeWhile (fun c => !(c == '\n') && !(c == '\r')))

/-- Python `str.split()` with no argument: split on whitespace runs,
no empty fields. -/
def pySplitWs (s : String) : List String :=
  (splitChars Char.isWhitespace s).filter (fun t => t ≠ "")

/-- Python `int(str(v))` on the strings the header can carry: optional sign
and decimal digits after stripping surrounding whitespace (exotic accepted
forms such as underscore separators are out of the model). -/
def pyInt (s : String) : Option Int :=
  let t := pyStrTrim s
  let core : String × Int :=
    if pyStartsWith t "-" then (pyStrDrop t 1, -1)
    else if pyStartsWith t "+" then (pyStrDrop t 1, 1)
    else (t, 1)
  if core.1 = "" then none
  else
    match pyDigitsToNat core.1.data 0 with
    | none => none
    | some n => some (core.2 * Int.ofNat n)

/-- `chunkfunc.parse_meta_header`, token phase: the `k=v` tokens of the first
line when it is of the form `[[META ...]]` (later duplicate keys win on
lookup, matching Python dict insertion).  `rstrip("]]")` strips any run of
trailing `]`; each token is split at its first `=`. -/
def parse_meta_header (text : String) : List (String × String) :=
  if text = "" then []
  else
    let first := pyStrTrim (firstLine text)
    if pyStartsWith first metaTag && pyEndsWith first "]]" then
      let inside := pyStrTrim (pyDropRightWhile (fun c => c = ']')
        (pyStrDrop first metaTag.length))
      (pySplitWs inside).filterMap (fun tok =>
        match splitChars (fun c => c = '=') tok with
        | [] => none
        | [_] => none
        | k :: rest => some (pyStrTrim k, pyStrTrim ("=".intercalate rest)))
    else []

/-- Last-wins lookup in the parsed token list (Python dict semantics). -/
def metaLookup (toks : List (String × String)) (k : String) : Option String :=
  toks.reverse.lookup k

/-- The page component of the merge key: the Python code converts
`meta["page"]` to `int` when possible and then interpolates it back into the
key with an f-string; a missing page interpolates as `"None"`. -/
def metaPageString (toks : List (String × String)) : String :=
  match metaLookup toks "page" with
  | none => "None"
  | some v =>
      match pyInt v with
      | some n => toString n
      | none => v

/-- The grouping key of `merge_hits_by_page_or_caption`:
`(type, page, caption)` for the exact strings `"table"` / `"figure"`,
`("text", page)` otherwise. -/
def hitKey (h : Hit) : String :=
  let toks := parse_meta_header h.chunk_text
  let t := (metaLookup toks "type").getD ""
  let page := metaPageString toks
  let caption := (metaLookup toks "caption").getD ""
  if t = "table" ∨ t = "figure" then
    if caption ≠ "" then t ++ ":" ++ page ++ ":" ++ caption
    else t ++ ":" ++ page
  else "text:" ++ page

/-- Strip the `[[META` header line from a later group member before
concatenation (no change when the first line is not a header). -/
def stripHeaderLine (txt : String) : String :=
  let ls := splitChars (fun c => c = '\n') txt
  match ls with
  | [] => txt
  | l0 :: rest =>
      if pyStartsWith l0 metaTag then pyStrTrim ("\n".intercalate rest) else txt

/-- Text accumulation on a key collision:
`(cur_txt.rstrip() + "\n\n" + add_txt).strip()` with `add_txt` header-stripped. -/
def combineTexts (cur add : String) : String :=
  pyStrTrim (rstripWs cur ++ "\n\n" ++ stripHeaderLine add)

/-- The merge loop state: the `merged` list and the `seen` dict collapse into
one insertion-ordered association list keyed by the grouping key. -/
def mergeLoop (acc : List (String × Hit)) : List Hit → List (String × Hit)
  | [] => acc
  | h :: rest =>
      let k := hitKey h
      if (acc.lookup k).isSome then
        mergeLoop
          (acc.map (fun p =>
            if p.1 == k then (p.1, { p.2 with chunk_text := combineTexts p.2.chunk_text h.chunk_text })
            else p))
          rest
      else
        mergeLoop (acc ++ [(k, h)]) rest

/-- The final length cap of the merge pass: texts longer than `maxChars` are
truncated and get the `...(merged truncated)` marker appended. -/
def capText (maxChars : ℕ) (h : Hit) : Hit :=
  if h.chunk_text ≠ "" ∧ h.chunk_text.length > maxChars then
    { h with chunk_text := pyStrTake h.chunk_text maxChars ++ "\n...(merged truncated)" }
  else h

/-- `chunkfunc.merge_hits_by_page_or_caption`. -/
def merge_hits_by_page_or_caption (maxChars : ℕ) (hits : List Hit) : List Hit :=
  if hits = [] then hits
  else ((mergeLoop [] hits).map (fun p => p.2)).map (capText maxChars)

/-! ## Hybrid retrieval pipeline (`core.chat_send`, retrieval part)

External calls are fields of `Env`; `Except.error e` models a raised Python
exception with message `e`. -/

/-- An item of the entity-extraction model output after JSON decoding
(`_extract_entities_from_text` input shape). -/
structure ExtractedEnt where
  name : String
  etype : String
  aliases : List String
  confidence : String
deriving DecidableEq, Repr

/-- A row returned by `find_entities_by_name_or_alias`
(columns used by `_find_entities_hybrid` and `chat_send`). -/
structure EntityHit where
  entity_id : String
  ename : String
  occurrence_count : Int
deriving DecidableEq, Repr

/-- A row returned by `get_neighbor_entities` (only `dst_name` is read). -/
structure NeighborRow where
  src_entity_id : String
  dst_entity_id : String
  dst_name : String
deriving DecidableEq, Repr

/-- One result item of the rerank service (`results=[{doc, score, rank}, ...]`;
either field may be missing). -/
structure RerankItem where
  doc : Option String
  score : Option ℚ
deriving DecidableEq, Repr

/-- The external collaborators of the retrieval pipeline. -/
structure Env where
  lnq : ℚ → ℚ
  call_vllm_extract : Except String (List ExtractedEnt)
  find_by_name_or_alias : String → Int → Except String (List EntityHit)
  embed_text : String → Except String (List ℚ)
  find_by_embedding : List ℚ → Int → Option ℚ → Except String (List (EntityHit × ℚ))
  get_neighbor_entities : List String → Int → Except String (List NeighborRow)
  list_chunk_ids_by_entities : List String → Int → Except String (List String)
  get_chunks_by_ids : List String → Except String (List Hit)
  search_chunks_call : String → List ℚ → Int → Except String (List Hit)
  rerank_results : String → List String → Int → Except String (List RerankItem)

/-- The configuration slice read by the retrieval part of `chat_send`. -/
structure Cfg where
  graph_enabled : Bool
  rerank_candidates : Int
  vector_candidates : Int
  graph_candidates : Int
  rerank_enabled : Bool
  rerank_min_score : Option ℚ
  pdf_top_k : Int
  max_pdf_context_chars : ℕ
  pre_rerank_merge_max_chars : ℕ
  graph_entity_min_sim : Option ℚ

/-- Confidence normalisation in `_extract_entities_from_text`:
`(item.get("confidence") or "medium").strip().lower()`, with anything outside
`high|medium|low` mapped to `medium`. -/
def normConf (c : String) : String :=
  let c0 := if c = "" then "medium" else c
  let c1 := pyToLower (pyStrTrim c0)
  if c1 = "high" ∨ c1 = "medium" ∨ c1 = "low" then c1 else "medium"

/-- Per-item validation in `_extract_entities_from_text`: items with an empty
(trimmed) name or type are dropped, confidence is normalised. -/
def normEnt (e : ExtractedEnt) : Option ExtractedEnt :=
  let n := pyStrTrim e.name
  let t := pyStrTrim e.etype
  if n = "" ∨ t = "" then none
  else some { name := n, etype := t, aliases := e.aliases, confidence := normConf e.confidence }

/-- `core._extract_entities_from_text`: a failure of the model call is caught
locally and yields the empty list; the decoded items are validated and soft
capped at 12. -/
def extract_entities (env : Env) (text : String) : List ExtractedEnt :=
  if pyStrTrim text = "" then []
  else
    match env.call_vllm_extract with
    | Except.error _ => []
    | Except.ok data => (data.filterMap normEnt).take 12

/-- An entity match with its blended score (`{**r, "score": ...}`). -/
structure ScoredEnt where
  row : EntityHit
  score : ℚ
deriving DecidableEq, Repr

/-- Exact/alias stage of `_find_entities_hybrid`: each row with a non-empty id
enters the result dict with score `1.0 + 0.2 * ln(occurrence + 1)`
(overwriting a previous entry for the same id in place). -/
def exactStage (env : Env) (ms : List EntityHit) : List (String × ScoredEnt) :=
  ms.foldl
    (fun acc r =>
      if r.entity_id = "" then acc
      else
        let v : ScoredEnt := { row := r, score := 1 + (1/5) * env.lnq ((r.occurrence_count : ℚ) + 1) }
        if acc.any (fun p => p.1 == r.entity_id) then
          acc.map (fun p => if p.1 == r.entity_id then (p.1, v) else p)
        else acc ++ [(r.entity_id, v)])
    []

/-- Embedding-recall stage of `_find_entities_hybrid`: runs only when the
exact stage produced fewer than `limit` entries; any failure of the embedding
or of the vector search over entities is caught locally and leaves the
results unchanged.  New ids get score `0.7 * similarity + 0.2 * ln(occurrence + 1)`. -/
def semStage (env : Env) (cfg : Cfg) (query_text : String) (limit : Int)
    (results : List (String × ScoredEnt)) : List (String × ScoredEnt) :=
  if (results.length : Int) < limit then
    match (do
        let q ← env.embed_text query_text
        env.find_by_embedding q limit cfg.graph_entity_min_sim : Except String (List (EntityHit × ℚ))) with
    | Except.error _ => results
    | Except.ok sem =>
        sem.foldl
          (fun acc pr =>
            if pr.1.entity_id = "" ∨ acc.any (fun p => p.1 == pr.1.entity_id) then acc
            else acc ++ [(pr.1.entity_id,
              { row := pr.1, score := (7/10) * pr.2 + (1/5) * env.lnq ((pr.1.occurrence_count : ℚ) + 1) })])
          results
  else results

/-- Final stage of `_find_entities_hybrid`: sort by score descending (stable,
as Python's `sorted`) and truncate. -/
def finishStage (results : List (String × ScoredEnt)) (limit : Int) : List ScoredEnt :=
  ((results.map (fun p => p.2)).mergeSort
    (fun a b => decide (b.score ≤ a.score))).take limit.toNat

/-- `core._find_entities_hybrid`: a failure of the exact/alias lookup
propagates; a failure of the embedding recall is degraded locally. -/
def find_entities_hybrid (env : Env) (cfg : Cfg) (query_text : String) (limit : Int) :
    Except String (List ScoredEnt) := do
  let ms ← env.find_by_name_or_alias query_text limit
  pure (finishStage (semStage env cfg query_text limit (exactStage env ms)) limit)

/-- Python list slicing `l[:k]` including the negative-index case. -/
def pySlice {α : Type} (l : List α) (k : Int) : List α :=
  if 0 ≤ k then l.take k.toNat else l.take (l.length - (-k).toNat)

/-- The union/deduplication loop of `chat_send` over
`graph_hits + vector_hits`: keep the first occurrence of every non-empty
chunk id, in order. -/
def unionDedup (l : List Hit) : List Hit :=
  (l.foldl
    (fun (acc : List Hit × List String) h =>
      if h.chunk_id = "" ∨ acc.2.contains h.chunk_id then acc
      else (acc.1 ++ [h], acc.2 ++ [h.chunk_id]))
    ([], [])).1

/-- The union step of the pipeline: dedup by chunk id (graph candidates first),
then `hits[:recall_k]` when `recall_k` is truthy and exceeded. -/
def unionStep (graph_hits vector_hits : List Hit) (recall_k : Int) : List Hit :=
  let hits := unionDedup (graph_hits ++ vector_hits)
  if recall_k ≠ 0 ∧ recall_k < (hits.length : Int) then pySlice hits recall_k else hits

/-- Index lookup and order accumulation in `rerank_hits`
(`i = docs.index(d)`, `if i not in used`). -/
def rerankTryAdd (st : List ℕ × List ℕ) (docs : List String) (d : String) :
    List ℕ × List ℕ :=
  match docs.indexOf? d with
  | none => st
  | some i => if st.2.contains i then st else (st.1 ++ [i], st.2 ++ [i])

/-- The per-item loop body of `rerank_client.rerank_hits`: items without a
document are skipped; with a configured `RERANK_MIN_SCORE` an item scoring
below it is dropped; surviving items are matched back to candidate indices. -/
def rerankStep (cfg : Cfg) (docs : List String) (st : List ℕ × List ℕ) (it : RerankItem) :
    List ℕ × List ℕ :=
  match it.doc with
  | none => st
  | some d =>
      match cfg.rerank_min_score, it.score with
      | some m, some s => if s < m then st else rerankTryAdd st docs d
      | _, _ => rerankTryAdd st docs d

/-- `rerank_client.rerank_hits`: a failed service call propagates as an
exception; the result list is the reordering computed by the loop above, with
the no-threshold backfill and the empty-order fallback. -/
def rerank_hits (env : Env) (cfg : Cfg) (query : String) (hits : List Hit) (top_k : Int) :
    Except String (List Hit) :=
  if hits = [] then pure hits
  else do
    let docs := hits.map (fun h => h.chunk_text)
    let results ← env.rerank_results query docs top_k
    let st := results.foldl (rerankStep cfg docs) ([], [])
    let order :=
      match cfg.rerank_min_score with
      | none => st.1 ++ ((List.range docs.length).filter (fun i => ¬ st.2.contains i))
      | some _ => if st.1 = [] then List.range docs.length else st.1
    pure (order.filterMap (fun i => hits.get? i))

/-- The graph-seeding block of `chat_send` (steps 1–3): extraction, hybrid
entity matching, one-hop neighbour expansion, query augmentation, and the
graph-path candidate fetch.  Returns the augmented query text and the
graph-path candidates. -/
def graphBlock (cfg : Cfg) (env : Env) (user_text : String) :
    Except String (String × List Hit) := do
  let q_entities := extract_entities env user_text
  let seeds ← q_entities.foldlM
    (fun (acc : List (String × String)) ent => do
      let ms ← find_entities_hybrid env cfg ent.name 3
      pure (acc ++ ms.filterMap (fun m =>
        if m.row.entity_id = "" then none else some (m.row.entity_id, m.row.ename))))
    []
  let seed_ids := seeds.map (fun p => p.1)
  let seed_names := seeds.map (fun p => p.2)
  let neighbor_names ←
    if seed_ids ≠ [] then do
      let ns ← env.get_neighbor_entities seed_ids 10
      pure (ns.filterMap (fun n =>
        let nm := pyStrTrim n.dst_name
        if nm = "" then none else some nm))
    else pure []
  let extra_terms := " ".intercalate (pyDedup (seed_names ++ neighbor_names))
  let query_text := if extra_terms ≠ "" then user_text ++ "\n\n" ++ extra_terms else user_text
  let graph_hits ←
    if 0 < cfg.graph_candidates ∧ seed_ids ≠ [] then do
      let ids ← env.list_chunk_ids_by_entities seed_ids cfg.graph_candidates
      if ids ≠ [] then env.get_chunks_by_ids ids else pure []
    else pure []
  pure (query_text, graph_hits)

/-- The body of the single `try` block of `chat_send`, steps 1–7 of the
pipeline: graph seeding, vector search over the augmented query, union and
truncation, merge-by-page, optional rerank, and context building.  Returns
the context (if any hits survived) and the final hit list. -/
def chat_retrieve_core (cfg : Cfg) (env : Env) (user_text : String) :
    Except String (Option String × List Hit) := do
  let gb ← if cfg.graph_enabled then graphBlock cfg env user_text else pure (user_text, [])
  let query_text := gb.1
  let graph_hits := gb.2
  let q_emb ← env.embed_text query_text
  let vector_hits ← env.search_chunks_call query_text q_emb cfg.vector_candidates
  let hits := unionStep graph_hits vector_hits cfg.rerank_candidates
  let hits := merge_hits_by_page_or_caption cfg.pre_rerank_merge_max_chars hits
  let hits ←
    if cfg.rerank_enabled ∧ hits ≠ [] then rerank_hits env cfg user_text hits cfg.pdf_top_k
    else pure hits
  let pdf_context :=
    if hits ≠ [] then
      let context := "\n\n".intercalate ((hits.map (fun h => h.chunk_text)).filter (fun t => t ≠ ""))
      some (if cfg.max_pdf_context_chars < context.length then
              pyStrTake context cfg.max_pdf_context_chars ++ "\n...(截断)"
            else context)
    else none
  pure (pdf_context, hits)

/-- The retrieval part of `chat_send` including its exception handler: any
exception escaping the retrieval block is caught, the context is replaced by
an error note, and the hit list is emptied. -/
def chat_retrieve (cfg : Cfg) (env : Env) (user_text : String) : Option String × List Hit :=
  match chat_retrieve_core cfg env user_text with
  | Except.ok r => r
  | Except.error e => (some ("(向量库检索失败：" ++ e ++ ")"), [])

/-! ## Specification-side definitions

Independent formulations the loop-shaped pipeline functions are proved equal
to: first-occurrence deduplication by chunk id, and the group-then-concatenate
reading of the merge pass. -/

/-- First-occurrence deduplication of hits by chunk id, written as a
filtering recursion (not as the seen-set loop of the source). -/
def dedupByCid : List Hit → List Hit
  | [] => []
  | h :: t => h :: dedupByCid (t.filter (fun x => !(x.chunk_id == h.chunk_id)))
termination_by l => l.length
decreasing_by
  simp only [List.length_cons]
  exact Nat.lt_succ_of_le (List.length_filter_le _ _)

/-- The candidates of `hits` carrying the grouping key `k`, in input order. -/
def groupOf (hits : List Hit) (k : String) : List Hit :=
  hits.filter (fun h => hitKey h == k)

/-- The merged record of a non-empty group: the first member with the bodies
of the later members concatenated onto its text (`combineTexts` strips their
header lines).  The `[]` case is never reached from `mergeSpecAssoc`. -/
def mergeGroupRec (g : List Hit) : Hit :=
  match g with
  | [] => { chunk_id := "", doc_id := "", version_id := "", chunk_text := "", score := none }
  | h :: rest =>
      { h with chunk_text := rest.foldl (fun acc x => combineTexts acc x.chunk_text) h.chunk_text }

/-- The group-then-concatenate reading of the merge pass: one entry per
distinct key in first-seen order, carrying the merged record of its group. -/
def mergeSpecAssoc (hits : List Hit) : List (String × Hit) :=
  (pyDedup (hits.map hitKey)).map (fun k => (k, mergeGroupRec (groupOf hits k)))

/-! ## Concrete instances for counterexamples and witnesses -/

/-- A stored entity row used by witnesses. -/
def entityRowA : EntityRec :=
  { entity_id := "e1", app_id := "appA", name := "Alice", etype := "person",
    classification := 0, aliases := ["A."], description := some "desc",
    confidence := "medium", embedding := some [1, 0],
    occurrence_count := 4, is_active := false }

/-- A stored edge row used by witnesses. -/
def edgeRowA : EdgeRec :=
  { app_id := "appA", src_entity_id := "e1", dst_entity_id := "e2",
    edge_type := "co_occurs", weight := 3/10, confidence := "medium",
    classification := 0, evidence_count := 2,
    evidence_chunk_ids := ["c1", "c2"], edge_notes := none }

/-- A vector-path hit used by the pipeline counterexamples. -/
def vecHitA : Hit :=
  { chunk_id := "c1", doc_id := "d1", version_id := "v1",
    chunk_text := "hello world", score := none }

/-- A pipeline configuration mirroring the repository defaults
(`RERANK_CANDIDATES = 10`, `VECTOR_CHUNK_CANDIDATES = 40`,
`GRAPH_CHUNK_CANDIDATES = 20`, `PDF_TOP_K_CHUNKS = 3`,
`MAX_PDF_CONTEXT_CHARS = 8000`, `PRE_RERANK_MERGE_MAX_CHARS = 9000`,
`RERANK_MIN_SCORE = 0.4`), with the graph path enabled and rerank disabled. -/
def cfgA : Cfg :=
  { graph_enabled := true, rerank_candidates := 10, vector_candidates := 40,
    graph_candidates := 20, rerank_enabled := false, rerank_min_score := some (2/5),
    pdf_top_k := 3, max_pdf_context_chars := 8000, pre_rerank_merge_max_chars := 9000,
    graph_entity_min_sim := none }

/-- An environment where the entity-extraction model succeeds, the graph
store's entity lookup raises, and the vector search succeeds with one hit. -/
def envGraphDown : Env :=
  { lnq := fun _ => 0
    call_vllm_extract := Except.ok [{ name := "Alice", etype := "person", aliases := [], confidence := "high" }]
    find_by_name_or_alias := fun _ _ => Except.error "entity lookup down"
    embed_text := fun _ => Except.ok [1]
    find_by_embedding := fun _ _ _ => Except.ok []
    get_neighbor_entities := fun _ _ => Except.ok []
    list_chunk_ids_by_entities := fun _ _ => Except.ok []
    get_chunks_by_ids := fun _ => Except.ok []
    search_chunks_call := fun _ _ _ => Except.ok [vecHitA]
    rerank_results := fun _ _ _ => Except.ok [] }

/-- An environment where retrieval succeeds but the rerank service is
unreachable. -/
def envRerankDown : Env :=
  { envGraphDown with
    find_by_name_or_alias := fun _ _ => Except.ok []
    rerank_results := fun _ _ _ => Except.error "rerank down" }

/-- An environment whose embedding call raises. -/
def envEmbedDown : Env :=
  { envGraphDown with embed_text := fun _ => Except.error "embed down" }

/-- An environment whose rerank service answers with a single low score. -/
def envRerankLow : Env :=
  { envGraphDown with
    rerank_results := fun _ _ _ => Except.ok [{ doc := some "hello world", score := some 0 }] }

/-- The `Tables` block header written by `build_chunks_with_meta1`
(`chunkfunc.py` line 132) for page 3: the block type is capitalised. -/
def tablesHeader3 : String := build_meta_header (some "Tables") (some "3") none

/-- The plain-text header written by `build_chunks_with_meta1` for page 3. -/
def textHeader3 : String := build_meta_header (some "text") (some "3") none

/-- A second stored entity row (same tenant, id `e2`, occurrence 1, active). -/
def entityRowB : EntityRec :=
  { entityRowA with entity_id := "e2", occurrence_count := 1, is_active := true }

/-- A document-deleted job payload mentioning `e1` (count 4) and `e2`
(missing count, hence 1) in chunk `c1`. -/
def jobMentionsA : List MentionSnap :=
  [{ entity_id := "e1", chunk_id := "c1", mention_count := some 4 },
   { entity_id := "e2", chunk_id := "c1", mention_count := none }]

/-- A graph state with two active entities and one edge, used by the worker
witness. -/
def jobStateA : GraphState :=
  { entities := [{ entityRowA with is_active := true }, entityRowB],
    edges := [edgeRowA] }

/-- The effect of one decrement-map entry on one entity row
(`decrement_entity_occurrence` restricted to a single row); used to commute
the worker's fold of row-map updates into a row map of folds. -/
def decStepE (app : String) (e : EntityRec) (p : String × Int) : EntityRec :=
  if e.app_id == app && e.entity_id == p.1 then
    { e with occurrence_count := max (e.occurrence_count - p.2) 0 }
  else e

/-! ## Theorems -/

/-- Saturating accumulation absorbs an earlier clamp. -/
theorem min_add_sat (a c : ℚ) (hc : 0 ≤ c) : min (min a 1 + c) 1 = min (a + c) 1 := by
  rcases le_total a 1 with h | h
  · rw [min_eq_left h]
  · rw [min_eq_right h]
    have h1 : (1 : ℚ) ≤ 1 + c := by linarith
    have h2 : (1 : ℚ) ≤ a + c := by linarith
    rw [min_eq_right h1, min_eq_right h2]

/-- C1: `upsertEntity` on a natural-key collision merges instead of
inserting — the store size is unchanged, the matched row's aliases are
replaced, confidence overwritten, embedding updated only when supplied,
occurrence incremented by one, `is_active` forced true, and non-matching rows
survive untouched; two successive upserts with the same key from an empty
store yield exactly one row with `occurrence_count = 2`. -/
theorem upsert_entity_merge_semantics :
    (∀ (store : List EntityRec) (newId app n t : String) (aliases : List String)
        (description : Option String) (confidence : String) (cls : Int)
        (embedding : Option (List ℚ)) (r : EntityRec),
        r ∈ store → entityKeyMatches r app n t cls = true →
        (upsert_entity store newId app n t aliases description confidence cls embedding).length
            = store.length ∧
        (∃ rr ∈ upsert_entity store newId app n t aliases description confidence cls embedding,
          rr.aliases = aliases ∧ rr.confidence = confidence ∧
          rr.occurrence_count = r.occurrence_count + 1 ∧ rr.is_active = true ∧
          (embedding = none → rr.embedding = r.embedding) ∧
          (∀ emb, embedding = some emb → rr.embedding = some emb)) ∧
        (∀ s ∈ store, entityKeyMatches s app n t cls = false →
          s ∈ upsert_entity store newId app n t aliases description confidence cls embedding)) ∧
    (∀ (newId1 newId2 app n t : String) (a1 a2 : List String) (d1 d2 : Option String)
        (c1 c2 : String) (cls : Int) (e1 e2 : Option (List ℚ)),
        ∃ r, upsert_entity (upsert_entity [] newId1 app n t a1 d1 c1 cls e1)
                newId2 app n t a2 d2 c2 cls e2 = [r] ∧
             r.occurrence_count = 2 ∧ r.is_active = true) := by
  constructor
  · intro store newId app n t aliases description confidence cls embedding r hr hkey
    have hany : store.any (fun r => entityKeyMatches r app n t cls) = true :=
      List.any_eq_true.mpr ⟨r, hr, hkey⟩
    refine ⟨?_, ?_, ?_⟩
    · simp [upsert_entity, hany]
    · refine ⟨mergeEntityRow r aliases description confidence embedding, ?_, ?_⟩
      · simp only [upsert_entity, hany, if_true]
        exact List.mem_map.mpr ⟨r, hr, by simp [hkey]⟩
      · refine ⟨rfl, rfl, rfl, rfl, ?_, ?_⟩
        · intro h
          subst h
          rfl
        · intro emb h
          subst h
          rfl
    · intro s hs hkeyf
      simp only [upsert_entity, hany, if_true]
      exact List.mem_map.mpr ⟨s, hs, by simp [hkeyf]⟩
  · intro newId1 newId2 app n t a1 a2 d1 d2 c1 c2 cls e1 e2
    have h1 : upsert_entity [] newId1 app n t a1 d1 c1 cls e1
        = [⟨newId1, app, n, t, cls, a1, d1, c1, e1, 1, true⟩] := by
      simp [upsert_entity]
    rw [h1]
    have hkey : entityKeyMatches ⟨newId1, app, n, t, cls, a1, d1, c1, e1, 1, true⟩
        app n t cls = true := by
      simp [entityKeyMatches]
    refine ⟨mergeEntityRow ⟨newId1, app, n, t, cls, a1, d1, c1, e1, 1, true⟩ a2 d2 c2 e2,
      ?_, ?_, ?_⟩
    · simp [upsert_entity, hkey]
    · rfl
    · rfl

/-- C1 witness: a collision with a stored row (a deactivated entity with
occurrence 4) merges as described. -/
theorem upsert_entity_merge_semantics_witness :
    (upsert_entity [entityRowA] "e9" "appA" "Alice" "person" ["Al"] none "high" 0 none).length
        = [entityRowA].length ∧
    (∃ rr ∈ upsert_entity [entityRowA] "e9" "appA" "Alice" "person" ["Al"] none "high" 0 none,
      rr.aliases = ["Al"] ∧ rr.confidence = "high" ∧
      rr.occurrence_count = entityRowA.occurrence_count + 1 ∧ rr.is_active = true ∧
      ((none : Option (List ℚ)) = none → rr.embedding = entityRowA.embedding) ∧
      (∀ emb, (none : Option (List ℚ)) = some emb → rr.embedding = some emb)) ∧
    (∀ s ∈ [entityRowA], entityKeyMatches s "appA" "Alice" "person" 0 = false →
      s ∈ upsert_entity [entityRowA] "e9" "appA" "Alice" "person" ["Al"] none "high" 0 none) :=
  upsert_entity_merge_semantics.1 [entityRowA] "e9" "appA" "Alice" "person" ["Al"] none "high" 0
    none entityRowA (List.mem_singleton.mpr rfl) (by decide)

/-- The `N`-fold upsert of the same edge key with weight `1/2` from an empty
store keeps a single row whose weight is the clamped accumulation. -/
theorem upsert_edge_iter_half (N : ℕ) (app src dst t : String) (evidence : List String)
    (confidence : String) (cls : Int) (notes : Option String) (hN : 1 ≤ N) :
    ∃ r : EdgeRec,
      upsert_edge_iter N [] app src dst t (1/2) evidence confidence cls notes = [r] ∧
      edgeKeyMatches r app src dst t = true ∧
      r.weight = min ((N : ℚ) * (1/2)) 1 := by
  induction N with
  | zero => omega
  | succ m ih =>
      rcases Nat.eq_zero_or_pos m with hm | hm
      · subst hm
        refine ⟨⟨app, src, dst, t, 1/2, confidence, cls, 1, evidence, notes⟩,
          by simp [upsert_edge_iter, upsert_edge], by simp [edgeKeyMatches], ?_⟩
        show (1 : ℚ)/2 = min (((1 : ℕ) : ℚ) * (1/2)) 1
        norm_num
      · obtain ⟨r, hr, hkey, hw⟩ := ih hm
        rw [upsert_edge_iter, hr]
        have hany : [r].any (fun x => edgeKeyMatches x app src dst t) = true := by
          simp [hkey]
        have hkeep : edgeKeyMatches (mergeEdgeRow r (1/2) evidence confidence notes)
            app src dst t = edgeKeyMatches r app src dst t := rfl
        refine ⟨mergeEdgeRow r (1/2) evidence confidence notes, ?_, ?_, ?_⟩
        · simp [upsert_edge, hany, hkey]
        · rw [hkeep, hkey]
        · show min (r.weight + 1/2) 1 = min (((m + 1 : ℕ) : ℚ) * (1/2)) 1
          rw [hw, min_add_sat _ _ (by norm_num)]
          congr 1
          push_cast
          ring

/-- C5: the edge weight after `N` upserts of weight `0.5` each on a fresh key
is `min(0.5 * N, 1.0)`; on every collision the evidence count increments by
exactly one and the evidence chunk-id list becomes the deduplicated union of
the stored and incoming lists. -/
theorem upsert_edge_saturation :
    (∀ (app src dst t : String) (evidence : List String) (confidence : String)
        (cls : Int) (notes : Option String) (N : ℕ), 1 ≤ N →
        ∃ r : EdgeRec,
          upsert_edge_iter N [] app src dst t (1/2) evidence confidence cls notes = [r] ∧
          r.weight = min ((N : ℚ) * (1/2)) 1) ∧
    (∀ (store : List EdgeRec) (app src dst t : String) (w : ℚ) (evidence : List String)
        (confidence : String) (cls : Int) (notes : Option String) (r : EdgeRec),
        r ∈ store → edgeKeyMatches r app src dst t = true →
        ∃ rr ∈ upsert_edge store app src dst t w evidence confidence cls notes,
          rr.weight = min (r.weight + w) 1 ∧
          rr.evidence_count = r.evidence_count + 1 ∧
          rr.evidence_chunk_ids.Nodup ∧
          (∀ x, x ∈ rr.evidence_chunk_ids ↔ (x ∈ r.evidence_chunk_ids ∨ x ∈ evidence))) := by
  constructor
  · intro app src dst t evidence confidence cls notes N hN
    obtain ⟨r, hr, _, hw⟩ := upsert_edge_iter_half N app src dst t evidence confidence cls notes hN
    exact ⟨r, hr, hw⟩
  · intro store app src dst t w evidence confidence cls notes r hr hkey
    have hany : store.any (fun x => edgeKeyMatches x app src dst t) = true :=
      List.any_eq_true.mpr ⟨r, hr, hkey⟩
    refine ⟨mergeEdgeRow r w evidence confidence notes, ?_, rfl, rfl, ?_, ?_⟩
    · simp only [upsert_edge, hany, if_true]
      exact List.mem_map.mpr ⟨r, hr, by simp [hkey]⟩
    · exact List.nodup_dedup _
    · intro x
      simp [mergeEdgeRow, List.mem_dedup]

/-- C5 witness: a collision on the stored edge (weight 0.3, evidence 2,
evidence chunks `c1, c2`) accumulates as described. -/
theorem upsert_edge_saturation_witness :
    ∃ rr ∈ upsert_edge [edgeRowA] "appA" "e1" "e2" "co_occurs" (1/2) ["c2", "c3"] "high" 0 none,
      rr.weight = min (edgeRowA.weight + 1/2) 1 ∧
      rr.evidence_count = edgeRowA.evidence_count + 1 ∧
      rr.evidence_chunk_ids.Nodup ∧
      (∀ x, x ∈ rr.evidence_chunk_ids ↔ (x ∈ edgeRowA.evidence_chunk_ids ∨ x ∈ ["c2", "c3"])) :=
  upsert_edge_saturation.2 [edgeRowA] "appA" "e1" "e2" "co_occurs" (1/2) ["c2", "c3"] "high" 0
    none edgeRowA (List.mem_singleton.mpr rfl) (by decide)

/-- The scores attached by `search_chunks` (with `return_with_scores`) are the
`bscore`s of the sorted, truncated row list. -/
theorem search_chunks_scores_pairwise (rows : List ChunkRow) (q : List ℚ) (k : Option Int) :
    List.Pairwise (· ≤ ·) ((search_chunks rows q k true).filterMap (fun h => h.score)) := by
  unfold search_chunks
  rw [List.filterMap_map]
  have hrw : List.filterMap
      ((fun h : Hit => h.score) ∘ fun p : ChunkRow × ℚ =>
        ({ chunk_id := p.1.chunk_id, doc_id := p.1.doc_id, version_id := p.1.version_id,
           chunk_text := p.1.chunk_text,
           score := if true = true then some p.2 else none } : Hit))
      = List.filterMap (some ∘ fun p : ChunkRow × ℚ => p.2) := by
    funext l
    apply List.filterMap_congr
    intro x _
    simp
  rw [hrw, List.filterMap_eq_map]
  have hsorted : List.Pairwise
      (fun a b : ChunkRow × ℚ => (fun a b : ChunkRow × ℚ => decide (a.2 ≤ b.2)) a b = true)
      (((rows.filter (fun r => r.embedding.isSome)).map
          (fun r => (r, bscore q (r.embedding.getD [])))).mergeSort
        (fun a b => decide (a.2 ≤ b.2))) := by
    apply List.sorted_mergeSort
    · intro a b c hab hbc
      simp only [decide_eq_true_eq] at *
      exact le_trans hab hbc
    · intro a b
      simpa using le_total a.2 b.2
  refine List.pairwise_map.mpr ?_
  refine List.Pairwise.imp ?_ (hsorted.sublist (List.take_sublist _ _))
  intro a b h
  simpa using h

/-- C4: `searchChunks` returns its hits ordered by non-decreasing vector
distance — their attached scores (the squared distances) are pairwise
non-decreasing, hence so are the distances themselves (their square roots) —
and a missing or non-positive `topK` behaves exactly like `topK = 5`. -/
theorem search_chunks_ordered_and_default :
    (∀ (rows : List ChunkRow) (q : List ℚ) (k : Option Int),
        List.Sorted (· ≤ ·) ((search_chunks rows q k true).filterMap (fun h => h.score))) ∧
    (∀ (rows : List ChunkRow) (q : List ℚ) (k : Option Int),
        List.Sorted (· ≤ ·)
          (((search_chunks rows q k true).filterMap (fun h => h.score)).map
            (fun s : ℚ => Real.sqrt (s : ℝ)))) ∧
    (∀ (rows : List ChunkRow) (q : List ℚ) (ws : Bool),
        search_chunks rows q none ws = search_chunks rows q (some 5) ws) ∧
    (∀ (rows : List ChunkRow) (q : List ℚ) (ws : Bool) (t : Int), t ≤ 0 →
        search_chunks rows q (some t) ws = search_chunks rows q (some 5) ws) := by
  refine ⟨?_, ?_, ?_, ?_⟩
  · exact search_chunks_scores_pairwise
  · intro rows q k
    refine List.Pairwise.map _ ?_ (search_chunks_scores_pairwise rows q k)
    intro a b hab
    exact Real.sqrt_le_sqrt (by exact_mod_cast hab)
  · intro rows q ws
    have h5 : (if (5 : Int) ≤ 0 then (5 : Int) else 5) = 5 := by norm_num
    simp [search_chunks, h5]
  · intro rows q ws t ht
    have h5 : (if (5 : Int) ≤ 0 then (5 : Int) else 5) = 5 := by norm_num
    simp [search_chunks, h5, if_pos ht]

/-- C4 witness: a concrete non-positive `topK` defaults to 5. -/
theorem search_chunks_ordered_and_default_witness :
    search_chunks [] [1] (some (-2)) true = search_chunks [] [1] (some 5) true :=
  search_chunks_ordered_and_default.2.2.2 [] [1] true (-2) (by norm_num)

/-- The worker's fold of per-entity decrements is a single row map. -/
theorem dec_fold_eq_map (app : String) (dm : List (String × Int)) :
    ∀ ents : List EntityRec,
      dm.foldl (fun acc p => decrement_entity_occurrence acc app p.1 p.2) ents
        = ents.map (fun e => dm.foldl (decStepE app) e) := by
  induction dm with
  | nil => intro ents; simp
  | cons p dm ih =>
      intro ents
      simp only [List.foldl_cons]
      rw [ih (decrement_entity_occurrence ents app p.1 p.2)]
      show (ents.map (fun e => decStepE app e p)).map (fun e => dm.foldl (decStepE app) e) = _
      rw [List.map_map]
      rfl

/-- One decrement step preserves identity, tenant and activity of a row. -/
theorem decStepE_preserves (app : String) (e : EntityRec) (p : String × Int) :
    (decStepE app e p).entity_id = e.entity_id ∧ (decStepE app e p).app_id = e.app_id ∧
    (decStepE app e p).is_active = e.is_active := by
  unfold decStepE
  split <;> exact ⟨rfl, rfl, rfl⟩

/-- The decrement fold preserves identity, tenant and activity of a row. -/
theorem decFold_preserves (app : String) (dm : List (String × Int)) :
    ∀ e : EntityRec,
      (dm.foldl (decStepE app) e).entity_id = e.entity_id ∧
      (dm.foldl (decStepE app) e).app_id = e.app_id ∧
      (dm.foldl (decStepE app) e).is_active = e.is_active := by
  induction dm with
  | nil => intro e; exact ⟨rfl, rfl, rfl⟩
  | cons p dm ih =>
      intro e
      obtain ⟨h1, h2, h3⟩ := ih (decStepE app e p)
      obtain ⟨g1, g2, g3⟩ := decStepE_preserves app e p
      exact ⟨h1.trans g1, h2.trans g2, h3.trans g3⟩

/-- The decrement fold keeps occurrence counts non-negative. -/
theorem decFold_nonneg (app : String) (dm : List (String × Int)) :
    ∀ e : EntityRec, 0 ≤ e.occurrence_count →
      0 ≤ (dm.foldl (decStepE app) e).occurrence_count := by
  induction dm with
  | nil => intro e h; exact h
  | cons p dm ih =>
      intro e h
      refine ih (decStepE app e p) ?_
      unfold decStepE
      split
      · exact le_max_right _ _
      · exact h

/-- C6: processing one document-deleted job payload leaves every entity's
occurrence count non-negative, and flips `is_active` to false exactly on the
entities referenced by the payload's decrement map whose occurrence count has
reached zero; all other entities stay active.  (The store is assumed to hold
the rows visible under the caller's tenant context: active rows of tenant
`app` with non-negative counts.) -/
theorem process_graph_job_entity_invariants :
    ∀ (app : String) (mentions : List MentionSnap) (st : GraphState),
    (∀ e ∈ st.entities, e.is_active = true) →
    (∀ e ∈ st.entities, 0 ≤ e.occurrence_count) →
    (∀ e ∈ st.entities, e.app_id = app) →
    (∀ e ∈ (process_graph_job app mentions st).entities, 0 ≤ e.occurrence_count) ∧
    (∀ e ∈ (process_graph_job app mentions st).entities,
        e.is_active = false ↔
          (e.entity_id ∈ (buildJobMaps mentions).1.map (fun p => p.1) ∧
            e.occurrence_count = 0)) := by
  intro app mentions st hact hnn happ
  have hents : (process_graph_job app mentions st).entities
      = (st.entities.map (fun e => (buildJobMaps mentions).1.foldl (decStepE app) e)).map
          (fun e =>
            if e.app_id == app && ((buildJobMaps mentions).1.map (fun p => p.1)).contains e.entity_id
                && decide (e.occurrence_count ≤ 0) then
              { e with is_active := false, confidence := "low" }
            else e) := by
    show deactivate_entities_with_zero_occurrence
        ((buildJobMaps mentions).1.foldl
          (fun acc p => decrement_entity_occurrence acc app p.1 p.2) st.entities)
        app ((buildJobMaps mentions).1.map (fun p => p.1)) = _
    rw [dec_fold_eq_map]
    rfl
  constructor
  · intro e he
    rw [hents] at he
    obtain ⟨f, hf, rfl⟩ := List.mem_map.mp he
    obtain ⟨e0, he0, rfl⟩ := List.mem_map.mp hf
    have hocc : 0 ≤ ((buildJobMaps mentions).1.foldl (decStepE app) e0).occurrence_count :=
      decFold_nonneg app _ e0 (hnn e0 he0)
    split
    · exact hocc
    · exact hocc
  · intro e he
    rw [hents] at he
    obtain ⟨f, hf, rfl⟩ := List.mem_map.mp he
    obtain ⟨e0, he0, rfl⟩ := List.mem_map.mp hf
    obtain ⟨hid, hap, hac⟩ := decFold_preserves app (buildJobMaps mentions).1 e0
    set f := (buildJobMaps mentions).1.foldl (decStepE app) e0 with hfdef
    have hocc : 0 ≤ f.occurrence_count := decFold_nonneg app _ e0 (hnn e0 he0)
    have happf : (f.app_id == app) = true := by
      rw [hap, happ e0 he0]
      exact beq_self_eq_true app
    by_cases hcond : (((buildJobMaps mentions).1.map (fun p => p.1)).contains f.entity_id
        && decide (f.occurrence_count ≤ 0)) = true
    · rw [Bool.and_eq_true] at hcond
      have hmem : f.entity_id ∈ (buildJobMaps mentions).1.map (fun p => p.1) :=
        List.elem_iff.mp hcond.1
      have hz : f.occurrence_count = 0 :=
        le_antisymm (decide_eq_true_eq.mp hcond.2) hocc
      rw [if_pos (by rw [happf, hcond.1, hcond.2]; decide)]
      constructor
      · intro _
        exact ⟨hmem, hz⟩
      · intro _
        rfl
    · have hcond2 : (f.app_id == app
          && ((buildJobMaps mentions).1.map (fun p => p.1)).contains f.entity_id
          && decide (f.occurrence_count ≤ 0)) = false := by
        rcases Bool.eq_false_or_eq_true
            (((buildJobMaps mentions).1.map (fun p => p.1)).contains f.entity_id) with hc | hc
        · rcases Bool.eq_false_or_eq_true (decide (f.occurrence_count ≤ 0)) with hd | hd
          · exact absurd (by rw [hc, hd]; decide) hcond
          · rw [hd, Bool.and_false]
        · rw [hc, Bool.and_false, Bool.false_and]
      rw [if_neg (by rw [hcond2]; exact Bool.false_ne_true)]
      constructor
      · intro hfalse
        rw [hac] at hfalse
        rw [hact e0 he0] at hfalse
        exact absurd hfalse (by decide)
      · intro ⟨hmem, hz⟩
        exfalso
        apply hcond
        rw [Bool.and_eq_true]
        exact ⟨by simpa using List.elem_iff.mpr hmem,
          decide_eq_true_eq.mpr (le_of_eq hz)⟩

/-- C6 witness: a payload decrementing `e1` by 4 and `e2` by 1 on a store
where both are active with counts 4 and 1 deactivates both. -/
theorem process_graph_job_entity_invariants_witness :
    (∀ e ∈ (process_graph_job "appA" jobMentionsA jobStateA).entities,
        0 ≤ e.occurrence_count) ∧
    (∀ e ∈ (process_graph_job "appA" jobMentionsA jobStateA).entities,
        e.is_active = false ↔
          (e.entity_id ∈ (buildJobMaps jobMentionsA).1.map (fun p => p.1) ∧
            e.occurrence_count = 0)) :=
  process_graph_job_entity_invariants "appA" jobMentionsA jobStateA
    (by decide) (by decide) (by decide)

/-- Membership of the `pyDedup` fold. -/
theorem mem_pyDedup_fold (l : List String) :
    ∀ (acc : List String) (x : String),
      (x ∈ l.foldl (fun acc x => if acc.contains x then acc else acc ++ [x]) acc)
        ↔ (x ∈ acc ∨ x ∈ l) := by
  induction l with
  | nil => intro acc x; simp
  | cons y l ih =>
      intro acc x
      simp only [List.foldl_cons]
      rw [ih]
      by_cases hy : acc.contains y = true
      · have hymem : y ∈ acc := List.elem_iff.mp hy
        rw [if_pos hy]
        constructor
        · rintro (hx | hx)
          · exact Or.inl hx
          · exact Or.inr (List.mem_cons_of_mem _ hx)
        · rintro (hx | hx)
          · exact Or.inl hx
          · rcases List.mem_cons.mp hx with rfl | hx
            · exact Or.inl hymem
            · exact Or.inr hx
      · rw [if_neg hy]
        constructor
        · rintro (hx | hx)
          · rcases List.mem_append.mp hx with hx | hx
            · exact Or.inl hx
            · rcases List.mem_singleton.mp hx with rfl
              exact Or.inr (List.mem_cons_self _ _)
          · exact Or.inr (List.mem_cons_of_mem _ hx)
        · rintro (hx | hx)
          · exact Or.inl (List.mem_append.mpr (Or.inl hx))
          · rcases List.mem_cons.mp hx with rfl | hx
            · exact Or.inl (List.mem_append.mpr (Or.inr (List.mem_singleton.mpr rfl)))
            · exact Or.inr hx

/-- `pyDedup` preserves membership. -/
theorem mem_pyDedup (l : List String) (x : String) : x ∈ pyDedup l ↔ x ∈ l := by
  rw [pyDedup, mem_pyDedup_fold]
  simp

/-- Appending one element to the input of `pyDedup`. -/
theorem pyDedup_append_single (l : List String) (a : String) :
    pyDedup (l ++ [a]) = if a ∈ l then pyDedup l else pyDedup l ++ [a] := by
  unfold pyDedup
  rw [List.foldl_append]
  simp only [List.foldl_cons, List.foldl_nil]
  by_cases h : a ∈ l
  · rw [if_pos (List.elem_iff.mpr ((mem_pyDedup_fold l [] a).mpr (Or.inr h))), if_pos h]
  · rw [if_neg ?_, if_neg h]
    intro hc
    rcases (mem_pyDedup_fold l [] a).mp (List.elem_iff.mp hc) with hx | hx
    · exact absurd hx (List.not_mem_nil a)
    · exact h hx

/-- Lookup in an association list built by pairing keys with a function. -/
theorem lookup_map_pair (f : String → Hit) (k : String) :
    ∀ ks : List String,
      (((ks.map (fun x => (x, f x))).lookup k).isSome = true) ↔ k ∈ ks := by
  intro ks
  induction ks with
  | nil => simp
  | cons x ks ih =>
      simp only [List.map_cons, List.lookup_cons]
      by_cases hx : k = x
      · subst hx
        simp
      · rw [show (k == x) = false from beq_eq_false_iff_ne.mpr hx]
        simp [hx, ih]

/-- The per-key group gains exactly the new hit when its key matches. -/
theorem groupOf_append_single (pre : List Hit) (h : Hit) (k : String) :
    groupOf (pre ++ [h]) k
      = groupOf pre k ++ (if hitKey h == k then [h] else []) := by
  unfold groupOf
  rw [List.filter_append]
  congr 1
  rcases Bool.eq_false_or_eq_true (hitKey h == k) with hb | hb
  · simp [List.filter, hb]
  · simp [List.filter, hb]

/-- Extending a non-empty group by one member folds its body onto the merged
record's text. -/
theorem mergeGroupRec_append (g : List Hit) (h : Hit) (hg : g ≠ []) :
    mergeGroupRec (g ++ [h])
      = { mergeGroupRec g with
          chunk_text := combineTexts (mergeGroupRec g).chunk_text h.chunk_text } := by
  cases g with
  | nil => exact absurd rfl hg
  | cons x g =>
      show mergeGroupRec (x :: (g ++ [h])) = _
      unfold mergeGroupRec
      simp [List.foldl_append]

/-- The merge loop, started on the canonical association list of the already
processed prefix, computes the canonical association list of the whole
input: the loop is the group-then-concatenate pass. -/
theorem mergeLoop_spec :
    ∀ (rest pre : List Hit), mergeLoop (mergeSpecAssoc pre) rest = mergeSpecAssoc (pre ++ rest) := by
  intro rest
  induction rest with
  | nil => intro pre; simp [mergeLoop]
  | cons h rest ih =>
      intro pre
      show mergeLoop (mergeSpecAssoc pre) (h :: rest) = _
      by_cases hk : hitKey h ∈ pre.map hitKey
      · have hsome : (((mergeSpecAssoc pre).lookup (hitKey h)).isSome = true) :=
          (lookup_map_pair _ _ _).mpr ((mem_pyDedup _ _).mpr hk)
        rw [mergeLoop, if_pos hsome]
        have hupd : (mergeSpecAssoc pre).map
            (fun p =>
              if p.1 == hitKey h then
                (p.1, { p.2 with chunk_text := combineTexts p.2.chunk_text h.chunk_text })
              else p)
            = mergeSpecAssoc (pre ++ [h]) := by
          unfold mergeSpecAssoc
          rw [List.map_map]
          rw [show (pre ++ [h]).map hitKey = pre.map hitKey ++ [hitKey h] by simp]
          rw [pyDedup_append_single, if_pos hk]
          apply List.map_congr_left
          intro q hq
          have hqmem : q ∈ pre.map hitKey := (mem_pyDedup _ _).mp hq
          by_cases hke : q = hitKey h
          · subst hke
            rw [groupOf_append_single, if_pos (beq_self_eq_true (hitKey h))]
            have hne : groupOf pre (hitKey h) ≠ [] := by
              obtain ⟨x, hx, hxk⟩ := List.mem_map.mp hqmem
              intro hnil
              have hfx : x ∈ groupOf pre (hitKey h) :=
                List.mem_filter.mpr ⟨hx, by rw [hxk]; exact beq_self_eq_true (hitKey h)⟩
              rw [hnil] at hfx
              exact absurd hfx (List.not_mem_nil x)
            rw [mergeGroupRec_append _ _ hne]
            simp
          · have hbe : (q == hitKey h) = false := beq_eq_false_iff_ne.mpr hke
            have hbe2 : (hitKey h == q) = false :=
              beq_eq_false_iff_ne.mpr (fun hh => hke hh.symm)
            rw [groupOf_append_single, hbe2]
            simp [hbe, hke]
        rw [hupd, ih (pre ++ [h]), List.append_assoc]
        rfl
      · have hnone : (((mergeSpecAssoc pre).lookup (hitKey h)).isSome = false) := by
          rcases Bool.eq_false_or_eq_true ((mergeSpecAssoc pre).lookup (hitKey h)).isSome
            with hb | hb
          · exact absurd ((mem_pyDedup _ _).mp ((lookup_map_pair _ _ _).mp hb)) hk
          · exact hb
        rw [mergeLoop, if_neg (by rw [hnone]; exact Bool.false_ne_true)]
        have happ : mergeSpecAssoc pre ++ [(hitKey h, h)] = mergeSpecAssoc (pre ++ [h]) := by
          unfold mergeSpecAssoc
          rw [show (pre ++ [h]).map hitKey = pre.map hitKey ++ [hitKey h] by simp]
          rw [pyDedup_append_single, if_neg hk, List.map_append]
          congr 1
          · apply List.map_congr_left
            intro q hq
            have hqmem : q ∈ pre.map hitKey := (mem_pyDedup _ _).mp hq
            have hke : q ≠ hitKey h := fun hh => hk (hh ▸ hqmem)
            have hbe2 : (hitKey h == q) = false :=
              beq_eq_false_iff_ne.mpr (fun hh => hke hh.symm)
            rw [groupOf_append_single, hbe2]
            simp
          · rw [List.map_singleton]
            rw [groupOf_append_single, if_pos (beq_self_eq_true (hitKey h))]
            have hempty : groupOf pre (hitKey h) = [] := by
              unfold groupOf
              rw [List.filter_eq_nil_iff]
              intro x hx hbx
              exact hk (List.mem_map.mpr ⟨x, hx, eq_of_beq hbx⟩)
            rw [hempty, List.nil_append]
            rfl
        rw [happ, ih (pre ++ [h]), List.append_assoc]
        rfl

/-- C7: the merge pass equals the group-then-concatenate specification — one
record per distinct header key in first-seen order, whose text is the fold of
the group members' bodies in input order (later members header-stripped) —
and every output record's text obeys the configured ceiling: it is within
`maxChars` plus the truncation marker, and any text that exceeded the ceiling
ends in the marker.  Being a total function, the pass raises nothing. -/
theorem merge_hits_groups_and_caps (maxChars : ℕ) (hits : List Hit) :
    merge_hits_by_page_or_caption maxChars hits
      = ((pyDedup (hits.map hitKey)).map
          (fun k => mergeGroupRec (groupOf hits k))).map (capText maxChars) ∧
    (∀ h ∈ merge_hits_by_page_or_caption maxChars hits,
        h.chunk_text.length ≤ maxChars + ("\n...(merged truncated)").length ∧
        (maxChars < h.chunk_text.length →
          ∃ p, h.chunk_text = p ++ "\n...(merged truncated)" ∧ p.length ≤ maxChars)) := by
  have hmain : merge_hits_by_page_or_caption maxChars hits
      = ((pyDedup (hits.map hitKey)).map
          (fun k => mergeGroupRec (groupOf hits k))).map (capText maxChars) := by
    unfold merge_hits_by_page_or_caption
    by_cases hnil : hits = []
    · subst hnil
      simp [pyDedup]
    · rw [if_neg hnil]
      have h0 : mergeLoop [] hits = mergeSpecAssoc hits := by
        have := mergeLoop_spec hits []
        simpa [mergeSpecAssoc, pyDedup] using this
      rw [h0]
      unfold mergeSpecAssoc
      simp [List.map_map, Function.comp]
  refine ⟨hmain, ?_⟩
  intro h hmem
  rw [hmain] at hmem
  obtain ⟨h0, _, rfl⟩ := List.mem_map.mp hmem
  unfold capText
  split
  · rename_i hcond
    constructor
    · show (pyStrTake h0.chunk_text maxChars ++ "\n...(merged truncated)").length ≤ _
      rw [String.length_append]
      have : (pyStrTake h0.chunk_text maxChars).length ≤ maxChars := by
        show (h0.chunk_text.data.take maxChars).length ≤ maxChars
        rw [List.length_take]
        exact min_le_left _ _
      omega
    · intro _
      refine ⟨pyStrTake h0.chunk_text maxChars, rfl, ?_⟩
      show (h0.chunk_text.data.take maxChars).length ≤ maxChars
      rw [List.length_take]
      exact min_le_left _ _
  · rename_i hcond
    rw [not_and_or] at hcond
    rcases hcond with hc | hc
    · rw [not_not] at hc
      constructor
      · rw [hc]
        simp
      · intro hlt
        rw [hc] at hlt
        simp at hlt
    · rw [not_lt] at hc
      exact ⟨le_trans hc (Nat.le_add_right _ _), fun hlt => absurd hlt (not_lt.mpr hc)⟩

/-- The canonical deduplication is a sublist of its input. -/
theorem dedupByCid_sublist : ∀ l : List Hit, (dedupByCid l).Sublist l := by
  intro l
  induction l using dedupByCid.induct with
  | case1 =>
      rw [dedupByCid]
  | case2 h t ih =>
      rw [dedupByCid]
      exact (ih.trans (List.filter_sublist t)).cons₂ h

/-- The canonical deduplication produces pairwise distinct chunk ids. -/
theorem dedupByCid_nodup : ∀ l : List Hit, ((dedupByCid l).map (fun h => h.chunk_id)).Nodup := by
  intro l
  induction l using dedupByCid.induct with
  | case1 =>
      rw [dedupByCid]
      exact List.nodup_nil
  | case2 h t ih =>
      rw [dedupByCid, List.map_cons]
      refine List.nodup_cons.mpr ⟨?_, ih⟩
      intro hmem
      obtain ⟨x, hx, hxe⟩ := List.mem_map.mp hmem
      have hxf : x ∈ t.filter (fun x => !(x.chunk_id == h.chunk_id)) :=
        (dedupByCid_sublist _).mem hx
      have hb := (List.mem_filter.mp hxf).2
      rw [hxe] at hb
      simp at hb

/-- A `find?` over a filtered list agrees with the unfiltered one when the
search predicate entails the filter. -/
theorem find?_filter_of_imp : ∀ (t : List Hit) (p q : Hit → Bool),
    (∀ y, p y = true → q y = true) → (t.filter q).find? p = t.find? p := by
  intro t p q himp
  induction t with
  | nil => rfl
  | cons a t ih =>
      rcases Bool.eq_false_or_eq_true (q a) with hq | hq
      · rw [List.filter_cons, if_pos hq, List.find?_cons, List.find?_cons]
        cases hpa : p a
        · exact ih
        · rfl
      · rw [List.filter_cons, if_neg (by rw [hq]; exact Bool.false_ne_true)]
        have hp : p a = false := by
          rcases Bool.eq_false_or_eq_true (p a) with hp | hp
          · exact absurd (himp a hp) (by rw [hq]; exact Bool.false_ne_true)
          · exact hp
        rw [ih, List.find?_cons, hp]

/-- Every member of the canonical deduplication is the first input element
carrying its chunk id. -/
theorem dedupByCid_find? : ∀ l : List Hit, ∀ x ∈ dedupByCid l,
    l.find? (fun y => y.chunk_id == x.chunk_id) = some x := by
  intro l
  induction l using dedupByCid.induct with
  | case1 =>
      intro x hx
      rw [dedupByCid] at hx
      exact absurd hx (List.not_mem_nil x)
  | case2 h t ih =>
      intro x hx
      rw [dedupByCid] at hx
      rcases List.mem_cons.mp hx with rfl | hx
      · rw [List.find?_cons, beq_self_eq_true]
      · have hxf : x ∈ t.filter (fun y => !(y.chunk_id == h.chunk_id)) :=
          (dedupByCid_sublist _).mem hx
        have hne : (x.chunk_id == h.chunk_id) = false := by
          have hb := (List.mem_filter.mp hxf).2
          rcases Bool.eq_false_or_eq_true (x.chunk_id == h.chunk_id) with hb2 | hb2
          · rw [hb2] at hb
            exact absurd hb (by decide)
          · exact hb2
        rw [List.find?_cons]
        have hhx : (h.chunk_id == x.chunk_id) = false :=
          beq_eq_false_iff_ne.mpr (fun he => by
            rw [he] at hne
            rw [beq_self_eq_true] at hne
            exact absurd hne (by decide))
        rw [hhx]
        rw [← find?_filter_of_imp t (fun y => y.chunk_id == x.chunk_id)
          (fun y => !(y.chunk_id == h.chunk_id)) ?_]
        · exact ih x hx
        · intro y hy
          have hy2 : (y.chunk_id == x.chunk_id) = true := hy
          have hyx : y.chunk_id = x.chunk_id := eq_of_beq hy2
          show (!(y.chunk_id == h.chunk_id)) = true
          rw [hyx, hne]
          rfl

/-- Deduplicating an appended list splits into the deduplication of the first
part followed by a sublist of the second: graph-path candidates stay in front
of (surviving) vector-path candidates. -/
theorem dedupByCid_append : ∀ (n : ℕ) (g v : List Hit), g.length ≤ n →
    ∃ w, w.Sublist v ∧ dedupByCid (g ++ v) = dedupByCid g ++ w := by
  intro n
  have hnil : ∀ v : List Hit, ∃ w, w.Sublist v ∧
      dedupByCid (([] : List Hit) ++ v) = dedupByCid ([] : List Hit) ++ w := by
    intro v
    refine ⟨dedupByCid v, dedupByCid_sublist v, ?_⟩
    rw [List.nil_append]
    rw [show dedupByCid ([] : List Hit) = [] by rw [dedupByCid]]
    rw [List.nil_append]
  induction n with
  | zero =>
      intro g v hg
      rw [List.length_eq_zero.mp (Nat.le_zero.mp hg)]
      exact hnil v
  | succ n ih =>
      intro g v hg
      cases g with
      | nil => exact hnil v
      | cons h g1 =>
          rw [List.cons_append, dedupByCid, List.filter_append]
          obtain ⟨w, hw, heq⟩ := ih (g1.filter (fun x => !(x.chunk_id == h.chunk_id)))
            (v.filter (fun x => !(x.chunk_id == h.chunk_id)))
            (le_trans (List.length_filter_le _ _) (Nat.succ_le_succ_iff.mp hg))
          refine ⟨w, hw.trans (List.filter_sublist v), ?_⟩
          rw [heq, dedupByCid, List.cons_append]

/-- The union/dedup loop of `chat_send` computes the canonical first-occurrence
deduplication when every candidate has a non-empty chunk id. -/
theorem unionDedup_fold : ∀ (l : List Hit) (acc : List Hit) (seen : List String),
    (∀ h ∈ l, h.chunk_id ≠ "") →
    (l.foldl
      (fun (st : List Hit × List String) h =>
        if h.chunk_id = "" ∨ st.2.contains h.chunk_id then st
        else (st.1 ++ [h], st.2 ++ [h.chunk_id]))
      (acc, seen)).1
      = acc ++ dedupByCid (l.filter (fun h => !(seen.contains h.chunk_id))) := by
  intro l
  induction l with
  | nil => intro acc seen _; simp [dedupByCid]
  | cons h t ih =>
      intro acc seen hne
      have hcid : h.chunk_id ≠ "" := hne h (List.mem_cons_self h t)
      rw [List.foldl_cons, List.filter_cons]
      rcases Bool.eq_false_or_eq_true (seen.contains h.chunk_id) with hc | hc
      · rw [if_pos (Or.inr (by rw [hc]))]
        rw [if_neg (by rw [hc]; simp)]
        exact ih _ _ (fun x hx => hne x (List.mem_cons_of_mem h hx))
      · rw [if_neg (by rw [hc]; simp [hcid])]
        rw [if_pos (by rw [hc]; rfl)]
        rw [dedupByCid]
        rw [show (((acc, seen).1 ++ [h], (acc, seen).2 ++ [h.chunk_id])
            : List Hit × List String) = (acc ++ [h], seen ++ [h.chunk_id]) from rfl]
        rw [ih (acc ++ [h]) (seen ++ [h.chunk_id])
          (fun x hx => hne x (List.mem_cons_of_mem h hx))]
        have hpred : t.filter (fun x => !((seen ++ [h.chunk_id]).contains x.chunk_id))
            = (t.filter (fun x => !(seen.contains x.chunk_id))).filter
                (fun x => !(x.chunk_id == h.chunk_id)) := by
          rw [List.filter_filter]
          apply List.filter_congr
          intro x _
          show (!(seen ++ [h.chunk_id]).contains x.chunk_id)
            = (!(x.chunk_id == h.chunk_id) && !(seen.contains x.chunk_id))
          have helem : (seen ++ [h.chunk_id]).contains x.chunk_id
              = (seen.contains x.chunk_id || (x.chunk_id == h.chunk_id)) := by
            rw [Bool.eq_iff_iff]
            simp [List.elem_iff]
          rw [helem, Bool.not_or, Bool.and_comm]
        rw [← hpred, List.append_assoc]
        rfl

/-- `unionDedup` is the canonical deduplication on non-empty chunk ids. -/
theorem unionDedup_eq_dedupByCid (l : List Hit) (hne : ∀ h ∈ l, h.chunk_id ≠ "") :
    unionDedup l = dedupByCid l := by
  unfold unionDedup
  rw [unionDedup_fold l [] [] hne]
  rw [List.nil_append]
  congr 1
  rw [List.filter_eq_self]
  intro a _
  rfl

/-- C3: the pipeline's union step keeps the first occurrence of every chunk id
with all graph-path candidates in front, drops later duplicates, and truncates
to at most `rerankCandidates` entries. -/
theorem union_step_spec (graph_hits vector_hits : List Hit) (k : Int) (hk : 1 ≤ k)
    (hne : ∀ h ∈ graph_hits ++ vector_hits, h.chunk_id ≠ "") :
    unionStep graph_hits vector_hits k
        = (dedupByCid (graph_hits ++ vector_hits)).take k.toNat ∧
    ((unionStep graph_hits vector_hits k).map (fun h => h.chunk_id)).Nodup ∧
    (unionStep graph_hits vector_hits k).length ≤ k.toNat ∧
    (∀ h ∈ unionStep graph_hits vector_hits k,
       (graph_hits ++ vector_hits).find? (fun x => x.chunk_id == h.chunk_id) = some h) ∧
    (∃ w, w.Sublist vector_hits ∧
       dedupByCid (graph_hits ++ vector_hits) = dedupByCid graph_hits ++ w) := by
  have hmain : unionStep graph_hits vector_hits k
      = (dedupByCid (graph_hits ++ vector_hits)).take k.toNat := by
    unfold unionStep
    rw [unionDedup_eq_dedupByCid _ hne]
    by_cases hlen : k < ((dedupByCid (graph_hits ++ vector_hits)).length : Int)
    · rw [if_pos ⟨by omega, hlen⟩]
      unfold pySlice
      rw [if_pos (by omega)]
    · rw [if_neg (by intro hcon; exact hlen hcon.2)]
      rw [List.take_of_length_le (by omega)]
  refine ⟨hmain, ?_, ?_, ?_, ?_⟩
  · rw [hmain, List.map_take]
    exact (dedupByCid_nodup _).sublist (List.take_sublist _ _)
  · rw [hmain]
    exact le_trans (List.length_take_le _ _) (le_refl _)
  · intro h hmem
    rw [hmain] at hmem
    exact dedupByCid_find? _ h (List.mem_of_mem_take hmem)
  · exact dedupByCid_append (graph_hits.length) graph_hits vector_hits (le_refl _)

/-- C3 witness: a one-element graph path and an overlapping two-element
vector path with quota 10. -/
theorem union_step_spec_witness :
    unionStep [vecHitA] [vecHitA, { vecHitA with chunk_id := "c2" }] 10
        = (dedupByCid ([vecHitA] ++ [vecHitA, { vecHitA with chunk_id := "c2" }])).take
            (10 : Int).toNat ∧
    ((unionStep [vecHitA] [vecHitA, { vecHitA with chunk_id := "c2" }] 10).map
        (fun h => h.chunk_id)).Nodup ∧
    (unionStep [vecHitA] [vecHitA, { vecHitA with chunk_id := "c2" }] 10).length
        ≤ (10 : Int).toNat ∧
    (∀ h ∈ unionStep [vecHitA] [vecHitA, { vecHitA with chunk_id := "c2" }] 10,
       ([vecHitA] ++ [vecHitA, { vecHitA with chunk_id := "c2" }]).find?
           (fun x => x.chunk_id == h.chunk_id) = some h) ∧
    (∃ w, w.Sublist [vecHitA, { vecHitA with chunk_id := "c2" }] ∧
       dedupByCid ([vecHitA] ++ [vecHitA, { vecHitA with chunk_id := "c2" }])
           = dedupByCid [vecHitA] ++ w) :=
  union_step_spec [vecHitA] [vecHitA, { vecHitA with chunk_id := "c2" }] 10
    (by norm_num) (by decide)

/-- C2 (amended): a failure of the entity-extraction model call is caught
inside `_extract_entities_from_text` and the pipeline behaves exactly as if
the extractor had returned no entities (vector-only retrieval); a failure of
the embedding-based entity recall is caught inside `_find_entities_hybrid`
and leaves the exact-match results unchanged; but any exception that escapes
the retrieval block (graph store lookups, vector search, rerank) is caught by
the single `chat_send` handler, which empties the hit list and substitutes an
error note for the context — it does not degrade to vector-only retrieval,
and no retrieval error is raised to the caller. -/
theorem retrieval_failure_semantics :
    (∀ (cfg : Cfg) (env : Env) (user_text e : String),
        env.call_vllm_extract = Except.error e →
        chat_retrieve cfg env user_text
          = chat_retrieve cfg { env with call_vllm_extract := Except.ok [] } user_text) ∧
    (∀ (env : Env) (cfg : Cfg) (q : String) (limit : Int)
        (res : List (String × ScoredEnt)) (e : String),
        env.embed_text q = Except.error e → semStage env cfg q limit res = res) ∧
    (∀ (cfg : Cfg) (env : Env) (user_text e : String),
        chat_retrieve_core cfg env user_text = Except.error e →
        chat_retrieve cfg env user_text = (some ("(向量库检索失败：" ++ e ++ ")"), [])) := by
  refine ⟨?_, ?_, ?_⟩
  · intro cfg env user_text e h
    obtain ⟨lnq, cve, f1, f2, f3, f4, f5, f6, f7, f8⟩ := env
    cases h
    rfl
  · intro env cfg q limit res e h
    unfold semStage
    rw [h]
    split
    · rfl
    · rfl
  · intro cfg env user_text e h
    unfold chat_retrieve
    rw [h]

/-- C2 witness: with a raising embedding service, the embedding-recall stage
leaves the exact-stage results unchanged. -/
theorem retrieval_failure_semantics_witness :
    semStage envEmbedDown cfgA "Alice" 3 [] = [] :=
  retrieval_failure_semantics.2.1 envEmbedDown cfgA "Alice" 3 [] "embed down" rfl

/-- C2 counterexample: with the graph store's entity lookup raising, the
query does not degrade to vector-only retrieval — the caught exception wipes
the hit list (vector-only retrieval on the same environment returns the
vector hit). -/
theorem retrieval_graph_failure_counterexample :
    chat_retrieve cfgA envGraphDown "tell me about Alice"
        = (some "(向量库检索失败：entity lookup down)", []) ∧
    (chat_retrieve { cfgA with graph_enabled := false } envGraphDown "tell me about Alice").2
        = [vecHitA] :=
  ⟨by decide, by decide⟩

/-- The range of valid indices reproduces the list through `get?`. -/
theorem filterMap_get?_range (l : List Hit) :
    (List.range l.length).filterMap (fun i => l.get? i) = l := by
  induction l using List.reverseRecOn with
  | nil => rfl
  | append_singleton l a ih =>
      rw [List.length_append, List.length_singleton, List.range_succ, List.filterMap_append]
      congr 1
      · have hcg : List.filterMap (fun i => (l ++ [a]).get? i) (List.range l.length)
            = List.filterMap (fun i => l.get? i) (List.range l.length) := by
          apply List.filterMap_congr
          intro i hi
          rw [List.get?_append (List.mem_range.mp hi)]
        rw [hcg, ih]
      · rw [List.filterMap_cons]
        rw [show (l ++ [a]).get? l.length = some a from List.get?_concat_length l a]
        rfl

/-- C8 (amended): an unreachable rerank scorer makes `rerank_hits` raise, so
the `chat_send` handler discards all candidates (the final list is empty, not
the pre-rerank list); only when the rerank call succeeds and the minimum-score
threshold eliminates every returned candidate does the pipeline fall back to
the pre-rerank order and membership. -/
theorem rerank_failure_and_threshold :
    (∀ (env : Env) (cfg : Cfg) (query : String) (hits : List Hit) (top_k : Int) (e : String),
        hits ≠ [] →
        env.rerank_results query (hits.map (fun h => h.chunk_text)) top_k = Except.error e →
        rerank_hits env cfg query hits top_k = Except.error e) ∧
    (∀ (env : Env) (cfg : Cfg) (query : String) (hits : List Hit) (top_k : Int) (m : ℚ)
        (results : List RerankItem),
        cfg.rerank_min_score = some m →
        env.rerank_results query (hits.map (fun h => h.chunk_text)) top_k = Except.ok results →
        (∀ it ∈ results, ∃ s, it.score = some s ∧ s < m) →
        rerank_hits env cfg query hits top_k = Except.ok hits) := by
  constructor
  · intro env cfg query hits top_k e hne herr
    unfold rerank_hits
    rw [if_neg hne]
    simp only [herr]
    rfl
  · intro env cfg query hits top_k m results hm hok hbelow
    have hstep : ∀ docs : List String, ∀ it ∈ results,
        rerankStep cfg docs ([], []) it = ([], []) := by
      intro docs it hit
      obtain ⟨s, hs, hlt⟩ := hbelow it hit
      unfold rerankStep
      cases hd : it.doc with
      | none => rfl
      | some d =>
          rw [hm, hs]
          show (if s < m then (([], []) : List ℕ × List ℕ) else rerankTryAdd ([], []) docs d)
            = ([], [])
          rw [if_pos hlt]
    have hfold : ∀ docs : List String, ∀ rs : List RerankItem,
        (∀ it ∈ rs, rerankStep cfg docs ([], []) it = ([], [])) →
        rs.foldl (rerankStep cfg docs) (([], []) : List ℕ × List ℕ) = ([], []) := by
      intro docs rs
      induction rs with
      | nil => intro _; rfl
      | cons it rs ih =>
          intro hall
          rw [List.foldl_cons, hall it (List.mem_cons_self it rs)]
          exact ih (fun x hx => hall x (List.mem_cons_of_mem it hx))
    by_cases hnil : hits = []
    · subst hnil
      rfl
    · unfold rerank_hits
      rw [if_neg hnil]
      simp only [hok, hm]
      show Except.ok (List.filterMap (fun i => hits.get? i)
          (if (List.foldl (rerankStep cfg (List.map (fun h => h.chunk_text) hits))
                ([], []) results).1 = [] then
            List.range (List.map (fun h => h.chunk_text) hits).length
          else (List.foldl (rerankStep cfg (List.map (fun h => h.chunk_text) hits))
                ([], []) results).1))
        = Except.ok hits
      rw [hfold _ results (hstep _)]
      rw [if_pos (show ((([], []) : List ℕ × List ℕ)).1 = [] from rfl)]
      rw [List.length_map, filterMap_get?_range]

/-- C8 witness: a rerank response whose only item scores 0 (below the 0.4
threshold) leaves the candidate list unchanged. -/
theorem rerank_failure_and_threshold_witness :
    rerank_hits envRerankLow cfgA "q" [vecHitA] 3 = Except.ok [vecHitA] :=
  rerank_failure_and_threshold.2 envRerankLow cfgA "q" [vecHitA] 3 (2/5)
    [{ doc := some "hello world", score := some 0 }] rfl rfl
    (by
      intro it hit
      rw [List.mem_singleton] at hit
      subst hit
      exact ⟨0, rfl, by norm_num⟩)

/-- C8 counterexample: with the rerank service down and one retrieved
candidate, the final hit list is empty rather than the pre-rerank list
(obtained by disabling rerank on the same environment). -/
theorem rerank_failure_counterexample :
    chat_retrieve { cfgA with graph_enabled := false, rerank_enabled := true } envRerankDown "q"
        = (some "(向量库检索失败：rerank down)", []) ∧
    (chat_retrieve { cfgA with graph_enabled := false, rerank_enabled := false }
        envRerankDown "q").2 = [vecHitA] :=
  ⟨by decide, by decide⟩

/-- C7 witness: with ceiling 3, the single candidate is truncated and carries
the marker. -/
theorem merge_hits_groups_and_caps_witness :
    ({ vecHitA with chunk_text := "hel\n...(merged truncated)" } : Hit).chunk_text.length
        ≤ 3 + ("\n...(merged truncated)").length ∧
    (3 < ({ vecHitA with chunk_text := "hel\n...(merged truncated)" } : Hit).chunk_text.length →
      ∃ p, ({ vecHitA with chunk_text := "hel\n...(merged truncated)" } : Hit).chunk_text
          = p ++ "\n...(merged truncated)" ∧ p.length ≤ 3) :=
  (merge_hits_groups_and_caps 3 [vecHitA]).2
    { vecHitA with chunk_text := "hel\n...(merged truncated)" } (by decide)

/-- `takeWhile` passes over a fully matching block. -/
theorem takeWhile_all_append (p : Char → Bool) :
    ∀ (l₁ l₂ : List Char), l₁.all p = true →
      (l₁ ++ l₂).takeWhile p = l₁ ++ l₂.takeWhile p := by
  intro l₁
  induction l₁ with
  | nil => intro l₂ _; rfl
  | cons c l₁ ih =>
      intro l₂ hall
      rw [List.all_cons, Bool.and_eq_true] at hall
      rw [List.cons_append, List.takeWhile_cons, if_pos hall.1, ih l₂ hall.2]
      rfl

/-- `takeWhile` keeps a fully matching list. -/
theorem takeWhile_all_eq (p : Char → Bool) :
    ∀ l : List Char, l.all p = true → l.takeWhile p = l := by
  intro l
  induction l with
  | nil => intro _; rfl
  | cons c l ih =>
      intro hall
      rw [List.all_cons, Bool.and_eq_true] at hall
      rw [List.takeWhile_cons, if_pos hall.1, ih hall.2]

/-- Parsing a header followed by a newline and a body reads only the header
line: the body is invisible to the meta parser. -/
theorem parse_header_body (H body : String)
    (hnl : H.data.all (fun c => !(c == '\n') && !(c == '\r')) = true) (hne : H ≠ "") :
    parse_meta_header (H ++ "\n" ++ body) = parse_meta_header H := by
  have hdata : (H ++ "\n" ++ body).data = H.data ++ '\n' :: body.data := by
    rw [String.data_append, String.data_append]
    simp
  have hneq : (H ++ "\n" ++ body) ≠ "" := by
    intro hq
    have hd : (H ++ "\n" ++ body).data = [] := by rw [hq]
    rw [hdata] at hd
    exact absurd hd (by simp)
  have hfirst : firstLine (H ++ "\n" ++ body) = H := by
    unfold firstLine
    rw [hdata, takeWhile_all_append _ _ _ hnl]
    rw [show List.takeWhile (fun c => !(c == '\n') && !(c == '\r')) ('\n' :: body.data)
        = [] from by simp [List.takeWhile_cons]]
    rw [List.append_nil]
  have hfirstH : firstLine H = H := by
    unfold firstLine
    rw [takeWhile_all_eq _ _ hnl]
  have hfl : firstLine (H ++ "\n" ++ body) = firstLine H := by rw [hfirst, hfirstH]
  unfold parse_meta_header
  rw [if_neg hneq, if_neg hne, hfl]

/-- Two candidates with equal grouping keys collapse into a single merged
record. -/
theorem merge_two_same_key (a b : Hit) (hk : hitKey a = hitKey b) (maxChars : ℕ) :
    (merge_hits_by_page_or_caption maxChars [a, b]).length = 1 := by
  unfold merge_hits_by_page_or_caption
  rw [if_neg (by simp)]
  simp [mergeLoop, hk]

/-- C10 (implicit): the merge key comparison is case-sensitive against the
exact strings `"table"` and `"figure"`; any other parsed block type — in
particular the `Tables` and `Figures` headers that `build_chunks_with_meta1`
writes — falls back to the plain-text key determined by the page alone, so a
`Tables` block and a plain-text chunk of the same page collapse into one
merged record. -/
theorem merge_key_case_sensitive :
    (∀ h : Hit,
        (metaLookup (parse_meta_header h.chunk_text) "type").getD "" ≠ "table" →
        (metaLookup (parse_meta_header h.chunk_text) "type").getD "" ≠ "figure" →
        hitKey h = "text:" ++ metaPageString (parse_meta_header h.chunk_text)) ∧
    (∀ body : String,
        metaLookup (parse_meta_header (tablesHeader3 ++ "\n" ++ body)) "type"
          = some "Tables") ∧
    (∀ (cid1 did1 vid1 cid2 did2 vid2 : String) (sc1 sc2 : Option ℚ) (b1 b2 : String)
        (maxChars : ℕ),
        (merge_hits_by_page_or_caption maxChars
          [{ chunk_id := cid1, doc_id := did1, version_id := vid1,
             chunk_text := tablesHeader3 ++ "\n" ++ b1, score := sc1 },
           { chunk_id := cid2, doc_id := did2, version_id := vid2,
             chunk_text := textHeader3 ++ "\n" ++ b2, score := sc2 }]).length = 1) := by
  have hT : ∀ body : String, parse_meta_header (tablesHeader3 ++ "\n" ++ body)
      = [("type", "Tables"), ("page", "3")] := by
    intro body
    rw [parse_header_body tablesHeader3 body (by decide) (by decide)]
    decide
  have hX : ∀ body : String, parse_meta_header (textHeader3 ++ "\n" ++ body)
      = [("type", "text"), ("page", "3")] := by
    intro body
    rw [parse_header_body textHeader3 body (by decide) (by decide)]
    decide
  refine ⟨?_, ?_, ?_⟩
  · intro h h1 h2
    unfold hitKey
    rw [if_neg ?_]
    rintro (hh | hh)
    · exact h1 hh
    · exact h2 hh
  · intro body
    rw [hT body]
    decide
  · intro cid1 did1 vid1 cid2 did2 vid2 sc1 sc2 b1 b2 maxChars
    apply merge_two_same_key
    have h1 : hitKey ⟨cid1, did1, vid1, tablesHeader3 ++ "\n" ++ b1, sc1⟩ = "text:3" := by
      unfold hitKey
      rw [show (Hit.mk cid1 did1 vid1 (tablesHeader3 ++ "\n" ++ b1) sc1).chunk_text
          = tablesHeader3 ++ "\n" ++ b1 from rfl]
      rw [hT b1]
      decide
    have h2 : hitKey ⟨cid2, did2, vid2, textHeader3 ++ "\n" ++ b2, sc2⟩ = "text:3" := by
      unfold hitKey
      rw [show (Hit.mk cid2 did2 vid2 (textHeader3 ++ "\n" ++ b2) sc2).chunk_text
          = textHeader3 ++ "\n" ++ b2 from rfl]
      rw [hX b2]
      decide
    exact h1.trans h2.symm

/-- C10 witness: a hit whose header type parses as `Tables` takes the
plain-text page key. -/
theorem merge_key_case_sensitive_witness :
    hitKey { chunk_id := "x", doc_id := "d", version_id := "v",
             chunk_text := tablesHeader3 ++ "\n" ++ "| a | b |", score := none }
      = "text:" ++ metaPageString (parse_meta_header
          ({ chunk_id := "x", doc_id := "d", version_id := "v",
             chunk_text := tablesHeader3 ++ "\n" ++ "| a | b |",
             score := (none : Option ℚ) } : Hit).chunk_text) :=
  merge_key_case_sensitive.1
    { chunk_id := "x", doc_id := "d", version_id := "v",
      chunk_text := tablesHeader3 ++ "\n" ++ "| a | b |", score := none }
    (by decide) (by decide)

end Nexora
